import Mathlib

/-!
Verification of the Hot Chair office-attendance bot (src/bot.py).

The program is a Telegram bot keeping, in a single JSON file, a mapping
from week keys (ISO date of a Monday, "YYYY-MM-DD") to per-member lists of
weekday indices (0 = Monday .. 4 = Friday), a member-name directory and a
broadcast chat registry.  This file is a shallow embedding of the data
model and of the operations the claims are about:

* JSON objects become association lists (Python dicts preserve insertion
  order and have unique keys; lookup/update/delete are modelled by
  `lookupA` / `updA` / `eraseA`).
* `datetime` values are modelled by their proleptic-Gregorian ordinal
  (`datetime.toordinal`: day 1 is 0001-01-01, a Monday), so Python's
  `dt.weekday()` is `(n - 1) % 7` and `timedelta` arithmetic is ordinal
  arithmetic.  `strftime("%Y-%m-%d")` / `strptime` are modelled
  concretely by `formatDate` / `parseDate` over zero-padded digit strings
  (the ISO shape the spec states for week keys); `strptime` validates the
  month and day-of-month ranges, as CPython does.
* "now" is passed explicitly as an ordinal parameter (`nowOrd`).
* Fallible steps (Python exceptions) return `Option`.
-/

/-- `MIN_PEOPLE` from bot.py: required daily headcount. -/
def MIN_PEOPLE : Nat := 2

/-- `DAYS_RU` from bot.py: short Russian weekday names, Monday first. -/
def DAYS_RU : List String := ["Пн", "Вт", "Ср", "Чт", "Пт"]

/-- `DAYS_MAP` from bot.py: lowercase day tokens to weekday indices. -/
def DAYS_MAP : List (String × Nat) :=
  [("пн", 0), ("понедельник", 0), ("понедельника", 0),
   ("вт", 1), ("вторник", 1), ("вторника", 1),
   ("ср", 2), ("среда", 2), ("среду", 2),
   ("чт", 3), ("четверг", 3), ("четверга", 3),
   ("пт", 4), ("пятница", 4), ("пятницу", 4)]

/-- Association-list lookup, the model of Python `d[k]` / `d.get(k)`. -/
def lookupA {α : Type} : List (String × α) → String → Option α
  | [], _ => none
  | p :: t, k => if p.1 = k then some p.2 else lookupA t k

/-- Association-list update, the model of Python `d[k] = v` (keeps the
position of an existing key, appends a fresh key at the end). -/
def updA {α : Type} (k : String) (v : α) : List (String × α) → List (String × α)
  | [] => [(k, v)]
  | p :: t => if p.1 = k then (k, v) :: t else p :: updA k v t

/-- Association-list delete, the model of Python `del d[k]`. -/
def eraseA {α : Type} (k : String) : List (String × α) → List (String × α)
  | [] => []
  | p :: t => if p.1 = k then t else p :: eraseA k t

/-- Membership test, the model of Python `k in d`. -/
def containsA {α : Type} (l : List (String × α)) (k : String) : Bool :=
  (lookupA l k).isSome

/-- The persisted root object of bot.py (`data.json`): week records,
broadcast chat registry and the member display-name directory. -/
structure Store where
  weeks : List (String × List (String × List Nat))
  group_chats : List Int
  names : List (String × String)
deriving DecidableEq

/-- The empty store created by `load_data` when the file is absent. -/
def emptyStore : Store := ⟨[], [], []⟩

/-- `register_group_chat` from bot.py: append the chat id if absent. -/
def register_group_chat (chatId : Int) (s : Store) : Store :=
  if s.group_chats.contains chatId then s
  else ⟨s.weeks, s.group_chats ++ [chatId], s.names⟩

/-! ## Calendar arithmetic (model of the `datetime` library functions bot.py calls) -/

/-- Gregorian leap-year test. -/
def isLeap (y : Nat) : Bool := (y % 4 == 0 && y % 100 != 0) || y % 400 == 0

/-- Number of days in year `y`. -/
def daysInYear (y : Nat) : Nat := if isLeap y then 366 else 365

/-- Month lengths of year `y`, January first. -/
def monthLengths (y : Nat) : List Nat :=
  [31, if isLeap y then 29 else 28, 31, 30, 31, 30, 31, 31, 30, 31, 30, 31]

/-- Days in all years before year `y` (0 for year 1), as in
`datetime._days_before_year`. -/
def daysBeforeYear (y : Nat) : Nat :=
  365 * (y - 1) + (y - 1) / 4 - (y - 1) / 100 + (y - 1) / 400

/-- A calendar date. -/
structure Date where
  year : Nat
  month : Nat
  day : Nat
deriving DecidableEq

/-- Proleptic-Gregorian ordinal of a date (`datetime.toordinal`):
0001-01-01 is day 1. -/
def dateToOrdinal (d : Date) : Nat :=
  daysBeforeYear d.year + ((monthLengths d.year).take (d.month - 1)).sum + d.day

/-- Find the year containing day-of-era `n` counted from year `y`;
fuel-driven so that it is structural (fuel `n` always suffices since each
step consumes at least 365 days). -/
def yearLoopF : Nat → Nat → Nat → Nat × Nat
  | 0, y, n => (y, n)
  | fuel + 1, y, n =>
    if daysInYear y < n then yearLoopF fuel (y + 1) (n - daysInYear y) else (y, n)

/-- Find the month containing day-of-year `n`, walking the month lengths. -/
def monthLoop : List Nat → Nat → Nat → Nat × Nat
  | [], m, n => (m, n)
  | len :: rest, m, n =>
    if len < n then monthLoop rest (m + 1) (n - len) else (m, n)

/-- Inverse of `dateToOrdinal` (`datetime.fromordinal`). -/
def ordinalToDate (n : Nat) : Date :=
  let yk := yearLoopF n 1 n
  let md := monthLoop (monthLengths yk.1) 1 yk.2
  ⟨yk.1, md.1, md.2⟩

/-- The decimal digit character for `k` (0 ≤ k ≤ 9). -/
def digitChar (k : Nat) : Char := Char.ofNat (48 + k)

/-- Two-digit zero-padded rendering (`%m`, `%d`). -/
def pad2 (n : Nat) : List Char := [digitChar (n / 10 % 10), digitChar (n % 10)]

/-- Four-digit zero-padded rendering (`%Y` for years up to 9999). -/
def pad4 (n : Nat) : List Char :=
  [digitChar (n / 1000 % 10), digitChar (n / 100 % 10),
   digitChar (n / 10 % 10), digitChar (n % 10)]

/-- `strftime("%Y-%m-%d")`. -/
def formatDate (d : Date) : String :=
  String.mk (pad4 d.year ++ ('-') :: pad2 d.month ++ ('-') :: pad2 d.day)

/-- Numeric value of a decimal digit character, `none` otherwise. -/
def charDigit (c : Char) : Option Nat :=
  if 48 ≤ c.toNat ∧ c.toNat ≤ 57 then some (c.toNat - 48) else none

/-- `strptime(s, "%Y-%m-%d")` on the character list: requires the
ten-character zero-padded shape and validates the field ranges
(year ≥ 1, month in 1..12, day within the month), else fails. -/
def parseDateChars : List Char → Option Date
  | [a, b, c, d, s1, e, f, s2, g, h] =>
    if s1 = '-' ∧ s2 = '-' then
      (charDigit a).bind fun va =>
      (charDigit b).bind fun vb =>
      (charDigit c).bind fun vc =>
      (charDigit d).bind fun vd =>
      (charDigit e).bind fun ve =>
      (charDigit f).bind fun vf =>
      (charDigit g).bind fun vg =>
      (charDigit h).bind fun vh =>
      let y := ((va * 10 + vb) * 10 + vc) * 10 + vd
      let mo := ve * 10 + vf
      let da := vg * 10 + vh
      if 1 ≤ y ∧ 1 ≤ mo ∧ mo ≤ 12 ∧ 1 ≤ da ∧ da ≤ (monthLengths y).getD (mo - 1) 0
      then some ⟨y, mo, da⟩ else none
    else none
  | _ => none

/-- `strptime` on a string. -/
def parseDate (s : String) : Option Date := parseDateChars s.data

/-- `dt.weekday()` on an ordinal: Monday = 0 (ordinal 1 is a Monday). -/
def pyWeekday (n : Nat) : Nat := (n - 1) % 7

/-- `strftime("%Y-%m-%d")` of the date with ordinal `n`. -/
def formatOrdinal (n : Nat) : String := formatDate (ordinalToDate n)

/-- `week_key` from bot.py: subtract the weekday offset to reach Monday,
then format. The `datetime` argument is modelled by its date ordinal. -/
def week_key (n : Nat) : String := formatOrdinal (n - pyWeekday n)

/-- `current_week_key` from bot.py, with "now" passed explicitly. -/
def current_week_key (nowOrd : Nat) : String := week_key nowOrd

/-- `next_week_key` from bot.py: `week_key(now + timedelta(weeks=1))`. -/
def next_week_key (nowOrd : Nat) : String := week_key (nowOrd + 7)

/-- `monday_of` from bot.py: parse the key back into a date (the tzinfo
attachment has no observable effect in this model); the result datetime is
modelled by its ordinal.  `strptime` failure is `none`. -/
def monday_of (wk : String) : Option Nat := (parseDate wk).map dateToOrdinal

/-! ## Generic string helpers used by several handlers -/

/-- Python string `<`: lexicographic comparison by code point. -/
def strLtCh : List Char → List Char → Bool
  | [], [] => false
  | [], _ :: _ => true
  | _ :: _, [] => false
  | a :: as, b :: bs =>
    if a.toNat < b.toNat then true
    else if a.toNat = b.toNat then strLtCh as bs else false

/-- Python string `<` on strings. -/
def strLt (a b : String) : Bool := strLtCh a.data b.data

/-- Python `str.split(sep)` for a one-character separator, on characters:
`"".split(":") = [""]`, `"a:b".split(":") = ["a", "b"]`. -/
def splitOnCh (sep : Char) : List Char → List (List Char)
  | [] => [[]]
  | c :: rest =>
    if c = sep then [] :: splitOnCh sep rest
    else
      match splitOnCh sep rest with
      | [] => [[c]]
      | t :: ts => (c :: t) :: ts

/-- Python `str.split(sep)` on strings. -/
def pySplit (sep : Char) (s : String) : List String :=
  (splitOnCh sep s.data).map (fun l => String.mk l)

/-- Python `sep.join(parts)` (concatenation grouped to the right). -/
def joinStr (sep : String) : List String → String
  | [] => ""
  | [x] => x
  | x :: y :: ys => x ++ (sep ++ joinStr sep (y :: ys))

/-- Digit accumulator of `str(n)`; fuel-driven to stay structural. -/
def natStrAux : Nat → Nat → List Char → List Char
  | 0, _, acc => acc
  | fuel + 1, n, acc =>
    if n = 0 then acc else natStrAux fuel (n / 10) (digitChar (n % 10) :: acc)

/-- Python `str(n)` for a natural number (Telegram user ids are
nonnegative integers, so `str(update.effective_user.id)` is modelled by
`natStr` of a natural number). -/
def natStr (n : Nat) : String :=
  if n = 0 then "0" else String.mk (natStrAux n n [])

/-- ASCII decimal digit test (the only characters `str.isdigit` sees
here are from the regex class `[0-4,]`). -/
def isDigitCh (c : Char) : Bool := 48 ≤ c.toNat && c.toNat ≤ 57

/-- Value of a nonempty all-digit character list, as Python `int`. -/
def natOfDigits (l : List Char) : Nat :=
  l.foldl (fun a c => a * 10 + (c.toNat - 48)) 0

/-- On the reversed character list: drop through the first "\n\n"
(i.e. the last one of the original string); `none` when absent. -/
def dropAfterRevSep : List Char → Option (List Char)
  | [] => none
  | '\n' :: '\n' :: rest => some rest
  | _ :: rest => dropAfterRevSep rest

/-- Python `text.rsplit("\n\n", 1)[0]`: everything before the last
occurrence of a blank line, or the whole text when there is none. -/
def rsplitBefore (s : String) : String :=
  match dropAfterRevSep s.data.reverse with
  | some r => String.mk r.reverse
  | none => s

/-! ## Store mutations -/

/-- Lowercasing of the characters `str.lower` meets here (ASCII letters
and the Cyrillic alphabet used by `DAYS_MAP` tokens). -/
def ruLowerCh (c : Char) : Char :=
  if 65 ≤ c.toNat ∧ c.toNat ≤ 90 then Char.ofNat (c.toNat + 32)
  else if 1040 ≤ c.toNat ∧ c.toNat ≤ 1071 then Char.ofNat (c.toNat + 32)
  else if c.toNat = 1025 then Char.ofNat 1105
  else c

/-- Characters trimmed by `strip(",.")`. -/
def isStripCh (c : Char) : Bool := c = ',' || c = '.'

/-- Python `a.lower().strip(",.")`. -/
def normToken (a : String) : String :=
  String.mk ((((a.data.map ruLowerCh).dropWhile isStripCh).reverse.dropWhile isStripCh).reverse)

/-- Insert into a strictly sorted list of naturals without duplicating. -/
def insertSorted (x : Nat) : List Nat → List Nat
  | [] => [x]
  | y :: t =>
    if x < y then x :: y :: t
    else if x = y then y :: t
    else y :: insertSorted x t

/-- Python `sorted(set(l))` for naturals: strictly ascending distinct
values. -/
def sortedSet (l : List Nat) : List Nat := l.foldr insertSorted []

/-- `parse_days` from bot.py: map each normalised token through
`DAYS_MAP`, collect the hits, return `sorted(set(days))`, or `none`
when no token was recognised. -/
def parse_days (args : List String) : Option (List Nat) :=
  let days := args.filterMap (fun a => lookupA DAYS_MAP (normToken a))
  if days.isEmpty then none else some (sortedSet days)

/-- The "эту неделю"/"следующую неделю" phrase both mutation replies use. -/
def whichWeek (nowOrd : Nat) (wk : String) : String :=
  if wk = current_week_key nowOrd then "эту неделю" else "следующую неделю"

/-- `set_days_for_user` from bot.py: record the display name, create the
week record if absent, replace the member's day list, and return the
confirmation message.  The save is unconditional. -/
def set_days_for_user (nowOrd : Nat) (uid name : String) (days : List Nat) (wk : String)
    (s : Store) : Store × String :=
  let names' := updA uid name s.names
  let weeks0 := if containsA s.weeks wk then s.weeks else s.weeks ++ [(wk, [])]
  let inner := (lookupA weeks0 wk).getD []
  let weeks' := updA wk (updA uid days inner) weeks0
  let dayNames := joinStr ", " (days.map (fun d => DAYS_RU.getD d ""))
  (⟨weeks', s.group_chats, names'⟩,
   "✅ " ++ name ++ " будет в офисе на " ++ whichWeek nowOrd wk ++ ": " ++ dayNames)

/-- The no-records reply of `clear_days_for_user`. -/
def noRecordsMsg (which : String) : String :=
  "У тебя и так нет записей на " ++ which ++ "."

/-- The success reply of `clear_days_for_user`. -/
def clearedMsg (which : String) : String :=
  "🗑 Записи на " ++ which ++ " убраны."

/-- Python `wk in data["weeks"] and uid in data["weeks"][wk]`. -/
def hasEntry (s : Store) (wk uid : String) : Bool :=
  match lookupA s.weeks wk with
  | some inner => containsA inner uid
  | none => false

/-- `clear_days_for_user` from bot.py: delete the member's entry for the
week and save when present, otherwise report "no records" without
saving.  The middle component records whether `save_data` ran. -/
def clear_days_for_user (nowOrd : Nat) (uid wk : String) (s : Store) :
    Store × Bool × String :=
  let which := whichWeek nowOrd wk
  match lookupA s.weeks wk with
  | some inner =>
    if containsA inner uid then
      (⟨updA wk (eraseA uid inner) s.weeks, s.group_chats, s.names⟩, true, clearedMsg which)
    else (s, false, noRecordsMsg which)
  | none => (s, false, noRecordsMsg which)

/-- `cleanup_old_weeks` from bot.py: cutoff is
`strftime(now - timedelta(weeks=4))` (no flooring to Monday in the
code); week records whose key is string-less than the cutoff are
deleted; the boolean records whether `save_data` ran (it runs exactly
when some record was deleted). -/
def cleanup_old_weeks (nowOrd : Nat) (s : Store) : Store × Bool :=
  let cutoff := formatOrdinal (nowOrd - 28)
  let old := (s.weeks.map Prod.fst).filter (fun k => strLt k cutoff)
  (⟨s.weeks.filter (fun p => !strLt p.1 cutoff), s.group_chats, s.names⟩, !old.isEmpty)

/-- Modelled from the spec: the `/remind` handler's `toggle_chat`
operation is part of this repository's second bot variant, which is not
under src/ (src/bot.py only ever adds chats via `register_group_chat`).
Per the spec: "removes if present, adds if absent; returns the resulting
state so the caller can report \"enabled\"/\"disabled\"". -/
def toggle_chat (chatId : Int) (s : Store) : Store × Bool :=
  if s.group_chats.contains chatId then
    (⟨s.weeks, s.group_chats.filter (fun c => c ≠ chatId), s.names⟩, false)
  else (⟨s.weeks, s.group_chats ++ [chatId], s.names⟩, true)

/-- Modelled from the spec: the command surface (§6), including `/remind`
which only the second, missing bot variant registers. -/
def commandSurface : List String :=
  ["start", "set", "setnext", "clear", "clearnext", "week", "next", "status", "remind"]

/-! ## Deficit computation and week formatting -/

/-- Day count of `problem_days_text` from bot.py:
`sum(1 for days_list in week_data.values() if i in days_list)`. -/
def countDay (wd : List (String × List Nat)) (i : Nat) : Nat :=
  (wd.filter (fun p => p.2.contains i)).length

/-- `data["weeks"].get(wk, {})`. -/
def weekGet (s : Store) (wk : String) : List (String × List Nat) :=
  (lookupA s.weeks wk).getD []

/-- The per-day attendee-name list of `format_week` from bot.py:
members whose day list contains `i`, names resolved through
`data["names"]` with the `id:` fallback. -/
def formatWeekPeople (s : Store) (wk : String) (i : Nat) : List String :=
  (weekGet s wk).filterMap (fun p =>
    if p.2.contains i then some ((lookupA s.names p.1).getD ("id:" ++ p.1)) else none)

/-- The per-day status marker of `format_week` from bot.py. -/
def formatWeekMarker (s : Store) (wk : String) (i : Nat) : String :=
  if (formatWeekPeople s wk i).length < MIN_PEOPLE then "🔴" else "🟢"

/-- The deficit-day list of `problem_days_text` from bot.py, as
(day index, shortfall) pairs in loop order. -/
def problem_days (wd : List (String × List Nat)) : List (Nat × Nat) :=
  (List.range 5).filterMap (fun i =>
    if countDay wd i < MIN_PEOPLE then some (i, MIN_PEOPLE - countDay wd i) else none)

/-- The specification-side count: the number of members (keys of the
week mapping) whose stored day set contains `i`. -/
def specCount (wd : List (String × List Nat)) (i : Nat) : Nat :=
  ((wd.map Prod.fst).filter (fun m => ((lookupA wd m).getD []).contains i)).length

/-! ## The LLM directive parser (`parse_action`) -/

/-- A parsed directive (`parse_action`'s result dict). -/
inductive BotAction where
  | set (days : List Nat) (week : String) (weekLabel : String)
  | clear (week : String) (weekLabel : String)
deriving DecidableEq

/-- One anchored attempt of the regex
`ACTION:(SET|CLEAR):?([0-4,]*):?(this|next)?` at this position: it
succeeds exactly when `ACTION:SET` or `ACTION:CLEAR` starts here
(everything after group 1 is optional), returning group 1 and the rest. -/
def matchActionAt (l : List Char) : Option (Bool × List Char) :=
  if ("ACTION:SET".data).isPrefixOf l then some (true, l.drop 10)
  else if ("ACTION:CLEAR".data).isPrefixOf l then some (false, l.drop 12)
  else none

/-- `re.search` for the directive pattern: the leftmost position where
the anchored attempt succeeds. -/
def reSearchAction : List Char → Option (Bool × List Char)
  | [] => none
  | c :: rest =>
    match matchActionAt (c :: rest) with
    | some r => some r
    | none => reSearchAction rest

/-- The optional `:?` of the pattern: consume one colon if present. -/
def skipColon : List Char → List Char
  | ':' :: rest => rest
  | l => l

/-- The greedy `([0-4,]*)` group: longest run of `[0-4,]` characters,
and the remaining input. -/
def takeDaysRun : List Char → List Char × List Char
  | [] => ([], [])
  | c :: rest =>
    if c = ',' ∨ (('0') ≤ c ∧ c ≤ ('4')) then
      let p := takeDaysRun rest
      (c :: p.1, p.2)
    else ([], c :: rest)

/-- The optional `(this|next)?` group. -/
def weekTargetAt (l : List Char) : Option String :=
  if ("this".data).isPrefixOf l then some "this"
  else if ("next".data).isPrefixOf l then some "next"
  else none

/-- The body of `parse_action` after the regex matched: group 2 is the
comma-separated day-index run, group 3 (defaulting to `"this"`) picks the
week; SET requires a nonempty day string and a nonempty parsed
`sorted(set(...))` day list, CLEAR always succeeds. -/
def parseActionGroups (nowOrd : Nat) (isSet : Bool) (rest : List Char) : Option BotAction :=
  let r1 := skipColon rest
  let dr := takeDaysRun r1
  let r3 := skipColon dr.2
  let wt := (weekTargetAt r3).getD "this"
  let wk := if wt = "this" then current_week_key nowOrd else next_week_key nowOrd
  if isSet then
    if dr.1.isEmpty then none
    else
      let days := sortedSet ((splitOnCh (',') dr.1).filterMap (fun t =>
        if !t.isEmpty && t.all isDigitCh then
          (if natOfDigits t ≤ 4 then some (natOfDigits t) else none)
        else none))
      if days.isEmpty then none else some (BotAction.set days wk wt)
  else some (BotAction.clear wk wt)

/-- `parse_action` from bot.py: `re.search` the directive pattern (first
match wins), then build the action from the groups. -/
def parse_action (nowOrd : Nat) (text : String) : Option BotAction :=
  match reSearchAction text.data with
  | none => none
  | some br => parseActionGroups nowOrd br.1 br.2

/-! ## Confirmation payloads and the callback handler -/

/-- The `f"set:{uid}:{days_csv}:{wk}"` payload of `handle_text`
(string concatenation grouped to the right). -/
def mkSetCb (uid csv wk : String) : String :=
  "set:" ++ (uid ++ (":" ++ (csv ++ (":" ++ wk))))

/-- The `f"clear:{uid}:{wk}"` payload of `handle_text`. -/
def mkClearCb (uid wk : String) : String :=
  "clear:" ++ (uid ++ (":" ++ wk))

/-- `','.join(str(d) for d in days)`. -/
def csvOf (days : List Nat) : String := joinStr "," (days.map natStr)

/-- The confirmation-offer step of `handle_text` from bot.py: if
`parse_action` produced an action, offer it back as an inline-button
payload carrying the invoking user's id; otherwise offer nothing. -/
def handle_text_offer (nowOrd : Nat) (uidN : Nat) (llmText : String) : Option String :=
  match parse_action nowOrd llmText with
  | some (BotAction.set days wk _) => some (mkSetCb (natStr uidN) (csvOf days) wk)
  | some (BotAction.clear wk _) => some (mkClearCb (natStr uidN) wk)
  | none => none

/-- `[int(d) for d in days_str.split(",")]`: fails (Python raises) when
some token is not a plain digit string. -/
def pyParseInts (s : String) : Option (List Nat) :=
  let toks := splitOnCh (',') s.data
  if toks.all (fun t => !t.isEmpty && t.all isDigitCh) then some (toks.map natOfDigits)
  else none

/-- The observable reply of `handle_callback`. -/
inductive CbResp where
  | canceledEdit (msg : String)
  | alertNotYou (msg : String)
  | setDone (edited : String) (warnDeficit : Bool)
  | clearDone (edited : String)
  | crash
  | ignored
deriving DecidableEq

/-- The `show_alert` text for a foreign button press. -/
def notForYouMsg : String := "Эта кнопка не для тебя 😏"

/-- The suffix appended when a confirmation is cancelled. -/
def cancelSuffix : String := "\n\n❌ Отменено."

/-- `handle_callback` from bot.py.  `cb` is the button payload, `userId`
the presser's id (`str(query.from_user.id)`), `msgText` the prompt
message's text.  "cancel" edits the prompt for anyone; "set"/"clear"
payloads check the presser against the payload's target id before
committing; the deficit follow-up of the set path is recorded as the
boolean `warnDeficit` (the code tests `"🔴" in problems`, which holds
exactly when some day of the week is in deficit). -/
def handle_callback (nowOrd : Nat) (cb userId userName msgText : String) (s : Store) :
    Store × CbResp :=
  if cb = "cancel" then (s, CbResp.canceledEdit (rsplitBefore msgText ++ cancelSuffix))
  else
    let parts := pySplit (':') cb
    if parts.getD 0 "" = "set" then
      let target := parts.getD 1 ""
      let daysStr := parts.getD 2 ""
      let wk := parts.getD 3 ""
      if userId ≠ target then (s, CbResp.alertNotYou notForYouMsg)
      else
        match pyParseInts daysStr with
        | none => (s, CbResp.crash)
        | some days =>
          let r := set_days_for_user nowOrd target userName days wk s
          (r.1, CbResp.setDone (rsplitBefore msgText ++ "\n\n" ++ r.2)
            (!(problem_days (weekGet r.1 wk)).isEmpty))
    else if parts.getD 0 "" = "clear" then
      let target := parts.getD 1 ""
      let wk := parts.getD 2 ""
      if userId ≠ target then (s, CbResp.alertNotYou notForYouMsg)
      else
        let r := clear_days_for_user nowOrd target wk s
        (r.1, CbResp.clearDone (rsplitBefore msgText ++ "\n\n" ++ r.2.2))
    else (s, CbResp.ignored)

/-! ## The reachable mutating operations (for the stored-data invariant) -/

/-- Day lists stored anywhere in the store contain only indices 0..4. -/
def WFb (s : Store) : Bool :=
  s.weeks.all (fun p => p.2.all (fun q => q.2.all (fun d => decide (d < 5))))

/-- One mutating interaction reachable through the public command and
confirmation interface (plus the scheduled sweep and the spec-modelled
`/remind`).  User ids carried as the naturals they stringify from. -/
inductive Op where
  | startCmd (chatId : Int) (isPrivate : Bool)
  | cmdSet (uidN : Nat) (name : String) (args : List String) (nowOrd : Nat) (isNext : Bool)
  | cmdClear (uidN : Nat) (nowOrd : Nat) (isNext : Bool)
  | llmConfirm (uidN : Nat) (name llmText msgText : String) (nowOrd : Nat)
  | cancelPress (uidN : Nat) (msgText : String) (nowOrd : Nat)
  | remindCmd (chatId : Int)
  | sweep (nowOrd : Nat)

/-- The store transformation each interaction performs, composed from
the handler pipeline exactly as bot.py wires it (free text goes through
`parse_action`, is offered as a payload, and the payload is pressed by
the same user). -/
def applyOp : Op → Store → Store
  | Op.startCmd c priv, s => if priv then s else register_group_chat c s
  | Op.cmdSet uidN name args nowOrd isNext, s =>
    match parse_days args with
    | none => s
    | some days =>
      (set_days_for_user nowOrd (natStr uidN) name days
        (if isNext then next_week_key nowOrd else current_week_key nowOrd) s).1
  | Op.cmdClear uidN nowOrd isNext, s =>
    (clear_days_for_user nowOrd (natStr uidN)
      (if isNext then next_week_key nowOrd else current_week_key nowOrd) s).1
  | Op.llmConfirm uidN name llmText msgText nowOrd, s =>
    match handle_text_offer nowOrd uidN llmText with
    | none => s
    | some cb => (handle_callback nowOrd cb (natStr uidN) name msgText s).1
  | Op.cancelPress uidN msgText nowOrd, s =>
    (handle_callback nowOrd "cancel" (natStr uidN) "" msgText s).1
  | Op.remindCmd c, s => (toggle_chat c s).1
  | Op.sweep nowOrd, s => (cleanup_old_weeks nowOrd s).1

/-! # Theorems -/

/-! ## Association-list lemmas -/

theorem lookupA_updA_self {α : Type} (k : String) (v : α) (l : List (String × α)) :
    lookupA (updA k v l) k = some v := by
  induction l with
  | nil => simp [updA, lookupA]
  | cons p t ih =>
    by_cases h : p.1 = k
    · simp [updA, h, lookupA]
    · simp [updA, h, lookupA, ih]

theorem updA_updA_self {α : Type} (k : String) (v : α) (l : List (String × α)) :
    updA k v (updA k v l) = updA k v l := by
  induction l with
  | nil => simp [updA]
  | cons p t ih =>
    by_cases h : p.1 = k
    · simp [updA, h]
    · simp [updA, h, ih]

theorem containsA_updA_self {α : Type} (k : String) (v : α) (l : List (String × α)) :
    containsA (updA k v l) k = true := by
  simp [containsA, lookupA_updA_self]

theorem lookupA_all {α : Type} (Q : α → Bool) (l : List (String × α))
    (h : l.all (fun p => Q p.2) = true) (k : String) (v : α)
    (hl : lookupA l k = some v) : Q v = true := by
  induction l with
  | nil => simp [lookupA] at hl
  | cons p t ih =>
    simp only [List.all_cons, Bool.and_eq_true] at h
    by_cases hp : p.1 = k
    · simp [lookupA, hp] at hl
      exact hl ▸ h.1
    · simp only [lookupA, hp, if_false] at hl
      exact ih h.2 hl

theorem updA_all {α : Type} (Q : α → Bool) (k : String) (v : α) (l : List (String × α))
    (h : l.all (fun p => Q p.2) = true) (hv : Q v = true) :
    (updA k v l).all (fun p => Q p.2) = true := by
  induction l with
  | nil => simp [updA, hv]
  | cons p t ih =>
    simp only [List.all_cons, Bool.and_eq_true] at h
    by_cases hp : p.1 = k
    · simp [updA, hp, hv, h.2, List.all_cons]
    · simp [updA, hp, h.1, ih h.2, List.all_cons]

theorem eraseA_all {α : Type} (Q : α → Bool) (k : String) (l : List (String × α))
    (h : l.all (fun p => Q p.2) = true) :
    (eraseA k l).all (fun p => Q p.2) = true := by
  induction l with
  | nil => simp [eraseA]
  | cons p t ih =>
    simp only [List.all_cons, Bool.and_eq_true] at h
    by_cases hp : p.1 = k
    · simp [eraseA, hp, h.2]
    · simp [eraseA, hp, h.1, ih h.2, List.all_cons]

/-! ## C4: idempotence of set_days -/

/-- C4: `set_days` is idempotent: for every member id, display name, day
list, and week key, applying `set_days_for_user` twice with the same
arguments yields a store state identical to applying it once. -/
theorem set_days_idempotent (nowOrd : Nat) (uid name : String) (days : List Nat)
    (wk : String) (s : Store) :
    (set_days_for_user nowOrd uid name days wk
      (set_days_for_user nowOrd uid name days wk s).1).1
      = (set_days_for_user nowOrd uid name days wk s).1 := by
  simp [set_days_for_user, containsA_updA_self, lookupA_updA_self, updA_updA_self]

/-! ## C5: clear_days on an absent entry -/

theorem noRecordsMsg_ne_clearedMsg (a b : String) : noRecordsMsg a ≠ clearedMsg b := by
  intro h
  have h2 := congrArg (fun s => s.data.head?) h
  simp only [noRecordsMsg, clearedMsg, String.data_append] at h2
  rw [List.head?_append, List.head?_append] at h2
  simp at h2

/-- C5: for every store state in which member `uid` has no entry under
week `wk`, `clear_days_for_user` returns the distinct "no records"
report, does not save, and leaves the store unchanged; when the member
does have an entry, it removes exactly that entry (and nothing else)
and saves.  The "no records" report is distinct from the success
report for every week phrase. -/
theorem clear_days_spec (nowOrd : Nat) (uid wk : String) (s : Store) :
    (hasEntry s wk uid = false →
      clear_days_for_user nowOrd uid wk s = (s, false, noRecordsMsg (whichWeek nowOrd wk))) ∧
    (hasEntry s wk uid = true →
      clear_days_for_user nowOrd uid wk s =
        (⟨updA wk (eraseA uid ((lookupA s.weeks wk).getD [])) s.weeks,
          s.group_chats, s.names⟩, true, clearedMsg (whichWeek nowOrd wk))) ∧
    (∀ a b : String, noRecordsMsg a ≠ clearedMsg b) := by
  refine ⟨fun h => ?_, fun h => ?_, noRecordsMsg_ne_clearedMsg⟩
  · unfold hasEntry at h
    unfold clear_days_for_user
    cases hl : lookupA s.weeks wk with
    | none => simp [hl]
    | some inner =>
      rw [hl] at h
      have h' : containsA inner uid = false := h
      simp [hl, h']
  · unfold hasEntry at h
    unfold clear_days_for_user
    cases hl : lookupA s.weeks wk with
    | none =>
      rw [hl] at h
      exact Bool.noConfusion h
    | some inner =>
      rw [hl] at h
      have h' : containsA inner uid = true := h
      simp [hl, h']

/-! ## C8: the /remind toggle (modelled from the spec) -/

/-- C8: the command surface includes `/remind`, and `toggle_chat`
removes the invoking chat from the broadcast registry if present, adds
it if absent, and reports the resulting enabled/disabled state (the
report is `true` exactly when the chat ends up registered). -/
theorem remind_toggle_spec :
    "remind" ∈ commandSurface ∧
    ∀ (c : Int) (s : Store),
      ((toggle_chat c s).2 = true ↔ c ∈ (toggle_chat c s).1.group_chats) ∧
      (c ∈ s.group_chats →
        (toggle_chat c s).1.group_chats = s.group_chats.filter (fun x => x ≠ c) ∧
        (toggle_chat c s).2 = false) ∧
      (c ∉ s.group_chats →
        (toggle_chat c s).1.group_chats = s.group_chats ++ [c] ∧
        (toggle_chat c s).2 = true) := by
  refine ⟨by decide, fun c s => ?_⟩
  by_cases h : c ∈ s.group_chats
  · refine ⟨?_, fun _ => by simp [toggle_chat, h], fun hn => absurd h hn⟩
    simp [toggle_chat, h, List.mem_filter]
  · refine ⟨?_, fun hm => absurd hm h, fun _ => by simp [toggle_chat, h]⟩
    simp [toggle_chat, h]

/-- Closed witness for `clear_days_spec` at concrete stores: an absent
entry is reported without mutation, a present one is erased. -/
theorem clear_days_spec_witness :
    (hasEntry emptyStore "w" "7" = false ∧
      clear_days_for_user 1 "7" "w" emptyStore
        = (emptyStore, false, noRecordsMsg (whichWeek 1 "w"))) ∧
    (hasEntry ⟨[("w", [("7", [0])])], [], []⟩ "w" "7" = true ∧
      clear_days_for_user 1 "7" "w" (⟨[("w", [("7", [0])])], [], []⟩ : Store)
        = (⟨[("w", [])], [], []⟩, true, clearedMsg (whichWeek 1 "w"))) := by
  refine ⟨⟨by decide, (clear_days_spec 1 "7" "w" emptyStore).1 (by decide)⟩,
    ⟨by decide, ?_⟩⟩
  have h := (clear_days_spec 1 "7" "w" ⟨[("w", [("7", [0])])], [], []⟩).2.1 (by decide)
  simpa [updA, eraseA, lookupA] using h

/-- Closed witness for `remind_toggle_spec`: toggling a registered chat
removes it, toggling an unregistered chat adds it. -/
theorem remind_toggle_spec_witness :
    ((5 : Int) ∈ ([5] : List Int) ∧
      (toggle_chat 5 ⟨[], [5], []⟩).1.group_chats = [] ∧ (toggle_chat 5 ⟨[], [5], []⟩).2 = false) ∧
    ((5 : Int) ∉ ([] : List Int) ∧
      (toggle_chat 5 emptyStore).1.group_chats = [] ++ [5] ∧ (toggle_chat 5 emptyStore).2 = true) := by
  refine ⟨⟨by decide, ?_⟩, ⟨by decide, ?_⟩⟩
  · have h := ((remind_toggle_spec.2 5 ⟨[], [5], []⟩).2.1 (by decide))
    simpa using h
  · exact (remind_toggle_spec.2 5 emptyStore).2.2 (by decide)

/-! ## Calendar lemmas (towards C2 and C3) -/

theorem string_mk_data (l : List Char) : (String.mk l).data = l := rfl

theorem isLeap_iff (y : Nat) :
    isLeap y = true ↔ ((y % 4 = 0 ∧ y % 100 ≠ 0) ∨ y % 400 = 0) := by
  unfold isLeap
  simp

theorem daysInYear_ge (y : Nat) : 365 ≤ daysInYear y := by
  unfold daysInYear
  split <;> omega

set_option maxHeartbeats 1600000 in
theorem daysBeforeYear_succ (y : Nat) (hy : 1 ≤ y) :
    daysBeforeYear (y + 1) = daysBeforeYear y + daysInYear y := by
  unfold daysInYear
  split
  · next hb =>
    have hp := (isLeap_iff y).mp hb
    unfold daysBeforeYear
    simp only [Nat.add_sub_cancel]
    rcases hp with ⟨h4, h100⟩ | h400
    · omega
    · omega
  · next hb =>
    have hp : ¬ ((y % 4 = 0 ∧ y % 100 ≠ 0) ∨ y % 400 = 0) :=
      fun hc => hb ((isLeap_iff y).mpr hc)
    push_neg at hp
    unfold daysBeforeYear
    simp only [Nat.add_sub_cancel]
    omega

theorem daysBeforeYear_le_succ (y : Nat) : daysBeforeYear y ≤ daysBeforeYear (y + 1) := by
  rcases Nat.eq_zero_or_pos y with h | h
  · subst h; decide
  · rw [daysBeforeYear_succ y h]; omega

theorem daysBeforeYear_mono {y1 y2 : Nat} (h : y1 ≤ y2) :
    daysBeforeYear y1 ≤ daysBeforeYear y2 := by
  induction y2, h using Nat.le_induction with
  | base => exact Nat.le_refl _
  | succ n hn ih => exact Nat.le_trans ih (daysBeforeYear_le_succ n)

theorem monthLengths_sum (y : Nat) : (monthLengths y).sum = daysInYear y := by
  unfold monthLengths daysInYear
  by_cases hl : isLeap y <;> simp [hl]

theorem yearLoopF_spec : ∀ (fuel y n : Nat), 1 ≤ y → 1 ≤ n → n ≤ 365 * fuel + 365 →
    daysBeforeYear (yearLoopF fuel y n).1 + (yearLoopF fuel y n).2 = daysBeforeYear y + n ∧
    1 ≤ (yearLoopF fuel y n).2 ∧
    (yearLoopF fuel y n).2 ≤ daysInYear (yearLoopF fuel y n).1 ∧
    y ≤ (yearLoopF fuel y n).1 := by
  intro fuel
  induction fuel with
  | zero =>
    intro y n hy hn hb
    have h365 : 365 ≤ daysInYear y := daysInYear_ge y
    exact ⟨rfl, hn, show n ≤ daysInYear y by omega, Nat.le_refl y⟩
  | succ fuel ih =>
    intro y n hy hn hb
    have h365 : 365 ≤ daysInYear y := daysInYear_ge y
    by_cases h : daysInYear y < n
    · have hrec := ih (y + 1) (n - daysInYear y) (by omega) (by omega) (by omega)
      have hstep := daysBeforeYear_succ y hy
      have hred : yearLoopF (fuel + 1) y n = yearLoopF fuel (y + 1) (n - daysInYear y) := by
        simp only [yearLoopF, h, if_true]
      rw [hred]
      omega
    · have hred : yearLoopF (fuel + 1) y n = (y, n) := by
        simp only [yearLoopF, h, if_false]
      rw [hred]
      exact ⟨rfl, hn, show n ≤ daysInYear y by omega, Nat.le_refl y⟩

theorem monthLoop_spec : ∀ (L : List Nat) (m n : Nat), 1 ≤ n → n ≤ L.sum →
    (monthLoop L m n).1 - m < L.length ∧
    m ≤ (monthLoop L m n).1 ∧
    (L.take ((monthLoop L m n).1 - m)).sum + (monthLoop L m n).2 = n ∧
    1 ≤ (monthLoop L m n).2 ∧
    (monthLoop L m n).2 ≤ L.getD ((monthLoop L m n).1 - m) 0 := by
  intro L
  induction L with
  | nil =>
    intro m n hn hb
    simp only [List.sum_nil] at hb
    omega
  | cons len rest ih =>
    intro m n hn hb
    simp only [List.sum_cons] at hb
    by_cases h : len < n
    · obtain ⟨h1, h2, h3, h4, h5⟩ := ih (m + 1) (n - len) (by omega) (by omega)
      simp only [monthLoop, h, if_true]
      have hidx : (monthLoop rest (m + 1) (n - len)).1 - m
          = ((monthLoop rest (m + 1) (n - len)).1 - (m + 1)) + 1 := by omega
      rw [hidx]
      refine ⟨by simp only [List.length_cons]; omega, by omega, ?_, h4, ?_⟩
      · rw [List.take_succ_cons, List.sum_cons]
        omega
      · simpa only [List.getD_cons_succ] using h5
    · simp only [monthLoop, h, if_false]
      refine ⟨by simp only [List.length_cons]; omega, by omega, ?_, hn, ?_⟩
      · simp only [Nat.sub_self, List.take_zero, List.sum_nil, Nat.zero_add]
      · simp only [Nat.sub_self, List.getD_cons_zero]
        omega

theorem ordinalToDate_spec (n : Nat) (hn : 1 ≤ n) :
    dateToOrdinal (ordinalToDate n) = n ∧
    1 ≤ (ordinalToDate n).year ∧
    1 ≤ (ordinalToDate n).month ∧ (ordinalToDate n).month ≤ 12 ∧
    1 ≤ (ordinalToDate n).day ∧
    (ordinalToDate n).day ≤
      (monthLengths (ordinalToDate n).year).getD ((ordinalToDate n).month - 1) 0 := by
  obtain ⟨hY1, hY2, hY3, hY4⟩ := yearLoopF_spec n 1 n (le_refl 1) hn (by omega)
  obtain ⟨hM1, hM2, hM3, hM4, hM5⟩ :=
    monthLoop_spec (monthLengths (yearLoopF n 1 n).1) 1 (yearLoopF n 1 n).2 hY2
      (by rw [monthLengths_sum]; exact hY3)
  have h0 : daysBeforeYear 1 = 0 := by decide
  have hlen : (monthLengths (yearLoopF n 1 n).1).length = 12 := rfl
  unfold ordinalToDate dateToOrdinal
  dsimp only
  refine ⟨by omega, by omega, by omega, by omega, hM4, hM5⟩

theorem ordinalToDate_year_le (n : Nat) (hn : 1 ≤ n) (hmax : n ≤ 3652059) :
    (ordinalToDate n).year ≤ 9999 := by
  obtain ⟨hY1, hY2, hY3, hY4⟩ := yearLoopF_spec n 1 n (le_refl 1) hn (by omega)
  have h0 : daysBeforeYear 1 = 0 := by decide
  show (yearLoopF n 1 n).1 ≤ 9999
  by_contra hgt
  have hge : (10000 : Nat) ≤ (yearLoopF n 1 n).1 := by omega
  have hm := daysBeforeYear_mono hge
  have hc : daysBeforeYear 10000 = 3652059 := by decide
  omega

theorem charDigit_digitChar (k : Nat) (hk : k < 10) : charDigit (digitChar k) = some k := by
  interval_cases k <;> decide

theorem parseDate_formatDate (y mo da : Nat) (h1 : 1 ≤ y) (h2 : y ≤ 9999)
    (h3 : 1 ≤ mo) (h4 : mo ≤ 12) (h5 : 1 ≤ da)
    (h6 : da ≤ (monthLengths y).getD (mo - 1) 0) :
    parseDate (formatDate ⟨y, mo, da⟩) = some ⟨y, mo, da⟩ := by
  have d1 : y / 1000 % 10 < 10 := Nat.mod_lt _ (by omega)
  have d2 : y / 100 % 10 < 10 := Nat.mod_lt _ (by omega)
  have d3 : y / 10 % 10 < 10 := Nat.mod_lt _ (by omega)
  have d4 : y % 10 < 10 := Nat.mod_lt _ (by omega)
  have d5 : mo / 10 % 10 < 10 := Nat.mod_lt _ (by omega)
  have d6 : mo % 10 < 10 := Nat.mod_lt _ (by omega)
  have d7 : da / 10 % 10 < 10 := Nat.mod_lt _ (by omega)
  have d8 : da % 10 < 10 := Nat.mod_lt _ (by omega)
  have hda99 : da ≤ 99 := by
    have h31 : (monthLengths y).getD (mo - 1) 0 ≤ 31 := by
      unfold monthLengths
      by_cases hl : isLeap y <;>
        · simp only [hl]
          rcases mo with _ | _ | _ | _ | _ | _ | _ | _ | _ | _ | _ | _ | _ <;>
            simp_all [List.getD] <;> omega
    omega
  have hyrec : ((y / 1000 % 10 * 10 + y / 100 % 10) * 10 + y / 10 % 10) * 10 + y % 10 = y := by
    omega
  have hmorec : mo / 10 % 10 * 10 + mo % 10 = mo := by omega
  have hdarec : da / 10 % 10 * 10 + da % 10 = da := by omega
  unfold parseDate formatDate pad4 pad2
  rw [string_mk_data]
  simp only [List.cons_append, List.nil_append]
  simp only [parseDateChars]
  rw [charDigit_digitChar _ d1, charDigit_digitChar _ d2, charDigit_digitChar _ d3,
    charDigit_digitChar _ d4, charDigit_digitChar _ d5, charDigit_digitChar _ d6,
    charDigit_digitChar _ d7, charDigit_digitChar _ d8]
  simp only [Option.some_bind, and_self, if_true]
  rw [hyrec, hmorec, hdarec]
  rw [if_pos ⟨h1, h3, h4, h5, h6⟩]

/-- C2: for every valid week key `k` (the formatted date of a Monday
ordinal `m`, years up to 9999), `week_key (monday_of k) = k`. -/
theorem week_key_monday_of_roundtrip (k : String) (m : Nat)
    (hm1 : 1 ≤ m) (hmax : m ≤ 3652059) (hm7 : m % 7 = 1)
    (hk : k = formatOrdinal m) :
    (monday_of k).map week_key = some k := by
  obtain ⟨ho, hy1, hmo1, hmo12, hd1, hd6⟩ := ordinalToDate_spec m hm1
  have hy2 := ordinalToDate_year_le m hm1 hmax
  subst hk
  have hparse : parseDate (formatDate (ordinalToDate m)) = some (ordinalToDate m) := by
    have h := parseDate_formatDate (ordinalToDate m).year (ordinalToDate m).month
      (ordinalToDate m).day hy1 hy2 hmo1 hmo12 hd1 hd6
    exact h
  unfold formatOrdinal monday_of
  rw [hparse]
  simp only [Option.map_some']
  rw [ho]
  unfold week_key pyWeekday
  have hsub : m - (m - 1) % 7 = m := by omega
  rw [hsub]
  rfl

/-- Closed witness for `week_key_monday_of_roundtrip` at ordinal 1
(0001-01-01, a Monday). -/
theorem week_key_monday_of_roundtrip_witness :
    ((1 : Nat) ≤ 1 ∧ (1 : Nat) ≤ 3652059 ∧ 1 % 7 = 1) ∧
    (monday_of (formatOrdinal 1)).map week_key = some (formatOrdinal 1) :=
  ⟨by decide, week_key_monday_of_roundtrip (formatOrdinal 1) 1 (by decide) (by decide)
    (by decide) rfl⟩

/-! ## C3: the retention sweep -/

/-- C3: when the retention sweep runs ("now" is a Monday: `main`
registers the job with `days=(0,)`), it removes exactly the week
records whose key is strictly less than the week key four weeks before
the current week key — the code's cutoff `strftime(now - 4 weeks)`
equals that week key precisely because now is a Monday — keeps every
other record and the other store fields, and saves exactly when at
least one record was removed. -/
theorem cleanup_removes_exactly_old (s : Store) (nowOrd : Nat)
    (hmon : pyWeekday nowOrd = 0) :
    (cleanup_old_weeks nowOrd s).1.weeks
        = s.weeks.filter (fun p => !strLt p.1 (week_key (nowOrd - 28))) ∧
    (cleanup_old_weeks nowOrd s).1.group_chats = s.group_chats ∧
    (cleanup_old_weeks nowOrd s).1.names = s.names ∧
    ((cleanup_old_weeks nowOrd s).2 = true ↔
      ∃ p ∈ s.weeks, strLt p.1 (week_key (nowOrd - 28)) = true) := by
  have hcut : week_key (nowOrd - 28) = formatOrdinal (nowOrd - 28) := by
    unfold week_key pyWeekday
    unfold pyWeekday at hmon
    have hsub : nowOrd - 28 - (nowOrd - 28 - 1) % 7 = nowOrd - 28 := by omega
    rw [hsub]
  rw [hcut]
  unfold cleanup_old_weeks
  refine ⟨rfl, rfl, rfl, ?_⟩
  simp only [Bool.not_eq_true', List.isEmpty_eq_false_iff_exists_mem, List.mem_filter,
    List.mem_map]
  constructor
  · rintro ⟨k, ⟨⟨p, hp, rfl⟩, hlt⟩⟩
    exact ⟨p, hp, hlt⟩
  · rintro ⟨p, hp, hlt⟩
    exact ⟨p.1, ⟨⟨p, hp, rfl⟩, hlt⟩⟩

/-- Closed witness for `cleanup_removes_exactly_old`: on Monday
ordinal 29 a stale record is deleted, a current one kept, and the
store is saved. -/
theorem cleanup_removes_exactly_old_witness :
    pyWeekday 29 = 0 ∧
    (cleanup_old_weeks 29 ⟨[("0001-01-01", []), ("0000-12-25", [])], [], []⟩).1.weeks
      = [("0001-01-01", [])] ∧
    (cleanup_old_weeks 29 ⟨[("0001-01-01", []), ("0000-12-25", [])], [], []⟩).2 = true := by
  have h := cleanup_removes_exactly_old ⟨[("0001-01-01", []), ("0000-12-25", [])], [], []⟩ 29
    (by decide)
  refine ⟨by decide, ?_, ?_⟩
  · rw [h.1]
    decide
  · exact h.2.2.2.mpr ⟨("0000-12-25", []), by decide, by decide⟩

/-! ## C1: the deficit computation -/

theorem specCount_eq_countDay (wd : List (String × List Nat)) (i : Nat) :
    (wd.map Prod.fst).Nodup → specCount wd i = countDay wd i := by
  induction wd with
  | nil => intro _; rfl
  | cons p t ih =>
    intro hnd
    simp only [List.map_cons, List.nodup_cons] at hnd
    obtain ⟨hp, ht⟩ := hnd
    unfold specCount countDay
    simp only [List.map_cons, List.filter_cons]
    have hself : lookupA (p :: t) p.1 = some p.2 := by simp [lookupA]
    have hcong : (t.map Prod.fst).filter
          (fun m => ((lookupA (p :: t) m).getD []).contains i)
        = (t.map Prod.fst).filter (fun m => ((lookupA t m).getD []).contains i) := by
      apply List.filter_congr
      intro m hm
      have hne : ¬ p.1 = m := fun h => hp (h ▸ hm)
      simp [lookupA, hne]
    rw [hself]
    by_cases hc : p.2.contains i = true
    · simp only [Option.getD_some, hc, if_true, List.length_cons]
      rw [hcong]
      have := ih ht
      unfold specCount countDay at this
      omega
    · simp only [Option.getD_some, hc, if_false, Bool.false_eq_true]
      rw [hcong]
      have := ih ht
      unfold specCount countDay at this
      omega

theorem filterMap_if_length {β : Type} (f : String × List Nat → β)
    (wd : List (String × List Nat)) (i : Nat) :
    (wd.filterMap (fun p => if p.2.contains i then some (f p) else none)).length
      = countDay wd i := by
  induction wd with
  | nil => rfl
  | cons p t ih =>
    unfold countDay at ih ⊢
    by_cases h : i ∈ p.2 <;>
      · simp [List.filterMap_cons, List.filter_cons, h] at ih ⊢
        exact ih

theorem problem_days_mem (wd : List (String × List Nat)) (d need : Nat) :
    (d, need) ∈ problem_days wd ↔
      d < 5 ∧ countDay wd d < MIN_PEOPLE ∧ need = MIN_PEOPLE - countDay wd d := by
  unfold problem_days
  simp only [List.mem_filterMap, List.mem_range]
  constructor
  · rintro ⟨i, hi, hif⟩
    by_cases h : countDay wd i < MIN_PEOPLE
    · rw [if_pos h] at hif
      obtain ⟨rfl, rfl⟩ : i = d ∧ MIN_PEOPLE - countDay wd i = need := by
        have := Option.some.inj hif
        exact ⟨congrArg Prod.fst this, congrArg Prod.snd this⟩
      exact ⟨hi, h, rfl⟩
    · rw [if_neg h] at hif
      exact absurd hif (by simp)
  · rintro ⟨hd, hc, rfl⟩
    exact ⟨d, hd, by rw [if_pos hc]⟩

/-- C1: for every store, week key `wk` and weekday index `d < 5` (with
the week mapping's keys distinct, as Python dict keys are), the count
computed by `problem_days_text` (`countDay`) and the people count of
`format_week` both equal the number of members whose stored day set
contains `d`; the red deficit marker appears and the day is listed
among the problem days exactly when that count is strictly below
`MIN_PEOPLE = 2`; and the listed shortfall is `MIN_PEOPLE` minus the
count (floored at 0, as Nat subtraction). -/
theorem deficit_count_spec (s : Store) (wk : String) (d : Nat) (hd : d < 5)
    (hnd : ((weekGet s wk).map Prod.fst).Nodup) :
    countDay (weekGet s wk) d = specCount (weekGet s wk) d ∧
    (formatWeekPeople s wk d).length = specCount (weekGet s wk) d ∧
    (formatWeekMarker s wk d = "🔴" ↔ specCount (weekGet s wk) d < MIN_PEOPLE) ∧
    (∀ need, (d, need) ∈ problem_days (weekGet s wk) ↔
      specCount (weekGet s wk) d < MIN_PEOPLE ∧
        need = MIN_PEOPLE - specCount (weekGet s wk) d) := by
  have h1 := specCount_eq_countDay (weekGet s wk) d hnd
  have h2 : (formatWeekPeople s wk d).length = countDay (weekGet s wk) d :=
    filterMap_if_length _ _ _
  refine ⟨h1.symm, by rw [h2, h1], ?_, ?_⟩
  · unfold formatWeekMarker
    have hlen : (formatWeekPeople s wk d).length < MIN_PEOPLE ↔
        specCount (weekGet s wk) d < MIN_PEOPLE := by rw [h2, h1]
    by_cases hc : specCount (weekGet s wk) d < MIN_PEOPLE
    · rw [if_pos (hlen.mpr hc)]
      simp [hc]
    · rw [if_neg (fun hx => hc (hlen.mp hx))]
      constructor
      · intro hcon
        exact absurd hcon (by decide)
      · intro hx
        exact absurd hx hc
  · intro need
    simp [problem_days_mem, h1, hd]

/-- Closed witness for `deficit_count_spec`: two members signed up for
Monday, none for Tuesday; Tuesday's shortfall is the full minimum. -/
theorem deficit_count_spec_witness :
    ((1 : Nat) < 5 ∧
      ((weekGet ⟨[("w", [("1", [0, 2]), ("2", [0])])], [], [("1", "A"), ("2", "B")]⟩ "w").map
        Prod.fst).Nodup) ∧
    countDay (weekGet ⟨[("w", [("1", [0, 2]), ("2", [0])])], [], [("1", "A"), ("2", "B")]⟩ "w") 1
      = specCount (weekGet ⟨[("w", [("1", [0, 2]), ("2", [0])])], [], [("1", "A"), ("2", "B")]⟩ "w") 1 ∧
    ((1, 2) ∈ problem_days
        (weekGet ⟨[("w", [("1", [0, 2]), ("2", [0])])], [], [("1", "A"), ("2", "B")]⟩ "w") ↔
      specCount (weekGet ⟨[("w", [("1", [0, 2]), ("2", [0])])], [], [("1", "A"), ("2", "B")]⟩ "w") 1
          < MIN_PEOPLE ∧
        (2 : Nat) = MIN_PEOPLE - specCount
          (weekGet ⟨[("w", [("1", [0, 2]), ("2", [0])])], [], [("1", "A"), ("2", "B")]⟩ "w") 1) := by
  refine ⟨by decide, ?_, ?_⟩
  · exact (deficit_count_spec ⟨[("w", [("1", [0, 2]), ("2", [0])])], [], [("1", "A"), ("2", "B")]⟩
      "w" 1 (by decide) (by decide)).1
  · exact (deficit_count_spec ⟨[("w", [("1", [0, 2]), ("2", [0])])], [], [("1", "A"), ("2", "B")]⟩
      "w" 1 (by decide) (by decide)).2.2.2 2

/-! ## Splitting confirmation payloads (towards C6 and C10) -/

theorem splitOnCh_not_mem (sep : Char) (a : List Char) (ha : sep ∉ a) :
    splitOnCh sep a = [a] := by
  induction a with
  | nil => rfl
  | cons c rest ih =>
    simp only [List.mem_cons, not_or] at ha
    obtain ⟨h1, h2⟩ := ha
    unfold splitOnCh
    rw [if_neg (fun h => h1 h.symm), ih h2]

theorem splitOnCh_append (sep : Char) (a b : List Char) (ha : sep ∉ a) :
    splitOnCh sep (a ++ sep :: b) = a :: splitOnCh sep b := by
  induction a with
  | nil =>
    simp only [List.nil_append]
    rw [splitOnCh]
    rw [if_pos rfl]
  | cons c rest ih =>
    simp only [List.mem_cons, not_or] at ha
    obtain ⟨h1, h2⟩ := ha
    simp only [List.cons_append]
    rw [splitOnCh]
    rw [if_neg (fun h => h1 h.symm), ih h2]

theorem pySplit_mkSetCb (uid csv wk : String) (hu : (':') ∉ uid.data)
    (hc : (':') ∉ csv.data) (hw : (':') ∉ wk.data) :
    pySplit (':') (mkSetCb uid csv wk) = ["set", uid, csv, wk] := by
  unfold pySplit
  have h0 : (mkSetCb uid csv wk).data
      = ['s', 'e', 't'] ++ ':' :: (uid.data ++ ':' :: (csv.data ++ ':' :: wk.data)) := rfl
  rw [h0,
    splitOnCh_append (':') ['s', 'e', 't']
      (uid.data ++ ':' :: (csv.data ++ ':' :: wk.data)) (by decide),
    splitOnCh_append (':') uid.data (csv.data ++ ':' :: wk.data) hu,
    splitOnCh_append (':') csv.data wk.data hc,
    splitOnCh_not_mem (':') wk.data hw]
  rfl

theorem pySplit_mkClearCb (uid wk : String) (hu : (':') ∉ uid.data)
    (hw : (':') ∉ wk.data) :
    pySplit (':') (mkClearCb uid wk) = ["clear", uid, wk] := by
  unfold pySplit
  have h0 : (mkClearCb uid wk).data
      = ['c', 'l', 'e', 'a', 'r'] ++ ':' :: (uid.data ++ ':' :: wk.data) := rfl
  rw [h0,
    splitOnCh_append (':') ['c', 'l', 'e', 'a', 'r'] (uid.data ++ ':' :: wk.data) (by decide),
    splitOnCh_append (':') uid.data wk.data hu,
    splitOnCh_not_mem (':') wk.data hw]
  rfl

theorem mkSetCb_ne_cancel (uid csv wk : String) : mkSetCb uid csv wk ≠ "cancel" := by
  intro h
  have h2 : 's' :: 'e' :: 't' :: ':' :: (uid.data ++ ':' :: (csv.data ++ ':' :: wk.data))
      = 'c' :: "ancel".data := congrArg String.data h
  injection h2 with h3 _
  exact absurd h3 (by decide)

theorem mkClearCb_ne_cancel (uid wk : String) : mkClearCb uid wk ≠ "cancel" := by
  intro h
  have h2 : 'c' :: 'l' :: 'e' :: 'a' :: 'r' :: ':' :: (uid.data ++ ':' :: wk.data)
      = 'c' :: 'a' :: "ncel".data := congrArg String.data h
  injection h2 with _ h3
  injection h3 with h4 _
  exact absurd h4 (by decide)

/-- C6: a set or clear confirmation payload proposing an action for
user `uid`, pressed by any identity different from `uid`, is rejected
with the distinct non-committing alert, and the store is not mutated.
(Payload components are colon-free, as the generated payloads are:
`str(id)` digits, a digit/comma day csv and a date-format week key.) -/
theorem handle_callback_rejects_foreign (nowOrd : Nat)
    (uid userId csv wk name msg : String) (s : Store)
    (hu : (':') ∉ uid.data) (hc : (':') ∉ csv.data) (hw : (':') ∉ wk.data)
    (hne : userId ≠ uid) :
    handle_callback nowOrd (mkSetCb uid csv wk) userId name msg s
        = (s, CbResp.alertNotYou notForYouMsg) ∧
    handle_callback nowOrd (mkClearCb uid wk) userId name msg s
        = (s, CbResp.alertNotYou notForYouMsg) := by
  constructor
  · unfold handle_callback
    rw [if_neg (mkSetCb_ne_cancel uid csv wk), pySplit_mkSetCb uid csv wk hu hc hw]
    simp [hne]
  · unfold handle_callback
    rw [if_neg (mkClearCb_ne_cancel uid wk), pySplit_mkClearCb uid wk hu hw]
    simp [hne]

/-- Closed witness for `handle_callback_rejects_foreign`: user "8"
presses user "7"'s buttons; both payloads are rejected without
touching the store. -/
theorem handle_callback_rejects_foreign_witness :
    ((':') ∉ ("7" : String).data ∧ (':') ∉ ("0" : String).data ∧
      (':') ∉ ("w" : String).data ∧ ("8" : String) ≠ "7") ∧
    handle_callback 1 (mkSetCb "7" "0" "w") "8" "n" "m" emptyStore
      = (emptyStore, CbResp.alertNotYou notForYouMsg) ∧
    handle_callback 1 (mkClearCb "7" "w") "8" "n" "m" emptyStore
      = (emptyStore, CbResp.alertNotYou notForYouMsg) := by
  refine ⟨⟨by decide, by decide, by decide, by decide⟩, ?_, ?_⟩
  · exact (handle_callback_rejects_foreign 1 "7" "8" "0" "w" "n" "m" emptyStore
      (by decide) (by decide) (by decide) (by decide)).1
  · exact (handle_callback_rejects_foreign 1 "7" "8" "0" "w" "n" "m" emptyStore
      (by decide) (by decide) (by decide) (by decide)).2

/-- C10: a callback press with payload "cancel" is accepted from every
user identity (no identity check happens): the persisted store is
returned unchanged and the only effect is editing the prompt message to
the canceled state (`rsplit("\n\n", 1)[0]` plus the canceled suffix). -/
theorem cancel_press_spec (nowOrd : Nat) (userId userName msgText : String) (s : Store) :
    handle_callback nowOrd "cancel" userId userName msgText s
      = (s, CbResp.canceledEdit (rsplitBefore msgText ++ cancelSuffix)) := by
  unfold handle_callback
  rw [if_pos rfl]

/-! ## C7: the directive parser -/

/-- C7 counterexample: a language-model reply containing two directives
still yields a proposed action — `re.search` honors the first match —
contradicting "a reply which contains multiple directives yields no
proposed action at all". -/
theorem parse_action_multiple_counterexample :
    parse_action 1 "ACTION:SET:0:this\nACTION:SET:1:next"
      = some (BotAction.set [0] (week_key 1) "this") := by decide

/-- C7 (amended): at most one directive is honored per inbound message
— the parser's result is determined by the first directive occurrence
alone; a reply with no directive match, or whose directive is malformed
(e.g. a SET with an empty day segment), yields no action, and then no
confirmation is offered; a reply containing multiple directives has its
first directive honored rather than being ignored. -/
theorem parse_action_amended :
    (∀ (nowOrd : Nat) (t : String) (uidN : Nat), parse_action nowOrd t = none →
      handle_text_offer nowOrd uidN t = none) ∧
    (∀ (nowOrd : Nat) (s : List Char) (isSet : Bool) (rest : List Char),
      matchActionAt s = some (isSet, rest) →
      parse_action nowOrd (String.mk s) = parseActionGroups nowOrd isSet rest) ∧
    parse_action 1 "ACTION:SET::this" = none ∧
    parse_action 1 "hello" = none ∧
    parse_action 1 "ACTION:SET:0:this\nACTION:SET:1:next"
      = some (BotAction.set [0] (week_key 1) "this") := by
  refine ⟨?_, ?_, by decide, by decide, by decide⟩
  · intro nowOrd t uidN h
    unfold handle_text_offer
    rw [h]
  · intro nowOrd s isSet rest h
    have hs : reSearchAction (String.mk s).data = some (isSet, rest) := by
      cases s with
      | nil =>
        have h0 : matchActionAt ([] : List Char) = none := by decide
        rw [h0] at h
        exact Option.noConfusion h
      | cons c cs =>
        rw [string_mk_data, reSearchAction, h]
    unfold parse_action
    rw [hs]

/-- Closed witness for `parse_action_amended`: a conversational reply
yields no offer, and a directive at position zero determines the
result. -/
theorem parse_action_amended_witness :
    (parse_action 1 "hi" = none ∧ handle_text_offer 1 7 "hi" = none) ∧
    (matchActionAt ("ACTION:CLEAR:this".data) = some (false, (":this".data)) ∧
      parse_action 1 (String.mk ("ACTION:CLEAR:this".data))
        = parseActionGroups 1 false (":this".data)) := by
  refine ⟨⟨by decide, ?_⟩, ⟨by decide, ?_⟩⟩
  · exact parse_action_amended.1 1 "hi" 7 (by decide)
  · exact parse_action_amended.2.1 1 ("ACTION:CLEAR:this".data) false (":this".data) (by decide)

/-! ## C9: helper lemmas about generated payload contents -/

theorem isDigitCh_digitChar (k : Nat) (hk : k < 10) : isDigitCh (digitChar k) = true := by
  interval_cases k <;> decide

theorem natStrAux_chars : ∀ (fuel n : Nat) (acc : List Char) (c : Char),
    c ∈ natStrAux fuel n acc → c ∈ acc ∨ isDigitCh c = true := by
  intro fuel
  induction fuel with
  | zero => intro n acc c h; exact Or.inl h
  | succ fuel ih =>
    intro n acc c h
    rw [natStrAux] at h
    by_cases hn : n = 0
    · rw [if_pos hn] at h
      exact Or.inl h
    · rw [if_neg hn] at h
      rcases ih (n / 10) (digitChar (n % 10) :: acc) c h with hacc | hdig
      · rcases List.mem_cons.mp hacc with hc | hc
        · refine Or.inr ?_
          rw [hc]
          exact isDigitCh_digitChar (n % 10) (Nat.mod_lt _ (by omega))
        · exact Or.inl hc
      · exact Or.inr hdig

theorem colon_not_mem_natStr (n : Nat) : (':') ∉ (natStr n).data := by
  unfold natStr
  by_cases hn : n = 0
  · rw [if_pos hn]
    decide
  · rw [if_neg hn]
    rw [string_mk_data]
    intro h
    rcases natStrAux_chars n n [] (':') h with hacc | hdig
    · exact absurd hacc (List.not_mem_nil _)
    · exact absurd hdig (by decide)

theorem colon_ne_digitChar (k : Nat) (hk : k < 10) : ¬ ((':') = digitChar k) := by
  interval_cases k <;> decide

theorem colon_not_mem_formatDate (d : Date) : (':') ∉ (formatDate d).data := by
  unfold formatDate pad4 pad2
  rw [string_mk_data]
  intro h
  simp only [List.cons_append, List.nil_append, List.mem_cons, List.not_mem_nil, or_false] at h
  rcases h with h | h | h | h | h | h | h | h | h | h <;>
    first
      | exact absurd h (by decide)
      | exact colon_ne_digitChar _ (Nat.mod_lt _ (by omega)) h

theorem colon_not_mem_week_key (n : Nat) : (':') ∉ (week_key n).data :=
  colon_not_mem_formatDate (ordinalToDate (n - pyWeekday n))

theorem natStr_small (d : Nat) (hd : d < 5) : (natStr d).data = [digitChar d] := by
  interval_cases d <;> decide

theorem comma_ne_digitChar (k : Nat) (hk : k < 10) : ¬ ((',') = digitChar k) := by
  interval_cases k <;> decide

theorem csvOf_single_data (d : Nat) : (csvOf [d]).data = (natStr d).data := rfl

theorem csvOf_cons2_data (d e : Nat) (t2 : List Nat) :
    (csvOf (d :: e :: t2)).data = (natStr d).data ++ ',' :: (csvOf (e :: t2)).data := rfl

theorem splitComma_csvOf : ∀ (days : List Nat), (∀ d ∈ days, d < 5) → days ≠ [] →
    splitOnCh (',') (csvOf days).data = days.map (fun d => [digitChar d]) := by
  intro days
  induction days with
  | nil => intro _ h; exact absurd rfl h
  | cons d t ih =>
    intro hb _
    have hd5 : d < 5 := hb d (List.mem_cons_self d t)
    have hdd : (natStr d).data = [digitChar d] := natStr_small d hd5
    have hcm : (',') ∉ (natStr d).data := by
      rw [hdd]
      intro hmem
      exact comma_ne_digitChar d (by omega) (List.mem_singleton.mp hmem)
    cases t with
    | nil =>
      rw [csvOf_single_data, splitOnCh_not_mem (',') _ hcm, hdd]
      rfl
    | cons e t2 =>
      rw [csvOf_cons2_data, splitOnCh_append (',') _ _ hcm,
        ih (fun x hx => hb x (List.mem_cons_of_mem d hx)) (by simp), hdd]
      rfl

theorem natOfDigits_digitChar (d : Nat) (hd : d < 5) : natOfDigits [digitChar d] = d := by
  interval_cases d <;> decide

theorem pyParseInts_csvOf (days : List Nat) (hb : ∀ d ∈ days, d < 5) (hne : days ≠ []) :
    pyParseInts (csvOf days) = some days := by
  unfold pyParseInts
  rw [splitComma_csvOf days hb hne]
  have hall : ((days.map (fun d => [digitChar d])).all
      (fun t => !t.isEmpty && t.all isDigitCh)) = true := by
    rw [List.all_eq_true]
    intro t ht
    rcases List.mem_map.mp ht with ⟨d, hd, rfl⟩
    have h10 : d < 10 := by have := hb d hd; omega
    simp [isDigitCh_digitChar d h10]
  rw [if_pos hall]
  congr 1
  rw [List.map_map]
  have hpt : ∀ x ∈ days, (natOfDigits ∘ fun d => [digitChar d]) x = id x := by
    intro x hx
    simp only [Function.comp, id]
    exact natOfDigits_digitChar x (hb x hx)
  rw [List.map_congr_left hpt, List.map_id]

theorem colon_not_mem_csvOf (days : List Nat) (hb : ∀ d ∈ days, d < 5) :
    (':') ∉ (csvOf days).data := by
  induction days with
  | nil => decide
  | cons d t ih =>
    have hd5 : d < 5 := hb d (List.mem_cons_self d t)
    have hdd : (natStr d).data = [digitChar d] := natStr_small d hd5
    cases t with
    | nil =>
      rw [csvOf_single_data, hdd]
      intro hmem
      exact colon_ne_digitChar d (by omega) (List.mem_singleton.mp hmem)
    | cons e t2 =>
      rw [csvOf_cons2_data]
      intro hmem
      rcases List.mem_append.mp hmem with h | h
      · rw [hdd] at h
        exact colon_ne_digitChar d (by omega) (List.mem_singleton.mp h)
      · rcases List.mem_cons.mp h with h | h
        · exact absurd h (by decide)
        · exact (ih (fun x hx => hb x (List.mem_cons_of_mem d hx))) h

theorem mem_insertSorted (x y : Nat) : ∀ (l : List Nat), x ∈ insertSorted y l → x = y ∨ x ∈ l := by
  intro l
  induction l with
  | nil =>
    intro h
    exact Or.inl (List.mem_singleton.mp h)
  | cons z t ih =>
    intro h
    unfold insertSorted at h
    by_cases h1 : y < z
    · rw [if_pos h1] at h
      rcases List.mem_cons.mp h with h | h
      · exact Or.inl h
      · exact Or.inr h
    · rw [if_neg h1] at h
      by_cases h2 : y = z
      · rw [if_pos h2] at h
        exact Or.inr h
      · rw [if_neg h2] at h
        rcases List.mem_cons.mp h with h | h
        · exact Or.inr (List.mem_cons.mpr (Or.inl h))
        · rcases ih h with h3 | h3
          · exact Or.inl h3
          · exact Or.inr (List.mem_cons.mpr (Or.inr h3))

theorem mem_sortedSet (x : Nat) : ∀ (l : List Nat), x ∈ sortedSet l → x ∈ l := by
  intro l
  induction l with
  | nil => intro h; exact absurd h (List.not_mem_nil x)
  | cons d t ih =>
    intro h
    have h0 : sortedSet (d :: t) = insertSorted d (sortedSet t) := rfl
    rw [h0] at h
    rcases mem_insertSorted x d (sortedSet t) h with h | h
    · exact List.mem_cons.mpr (Or.inl h)
    · exact List.mem_cons.mpr (Or.inr (ih h))

theorem parse_action_set_inv (nowOrd : Nat) (t : String) (days : List Nat) (wk wl : String)
    (h : parse_action nowOrd t = some (BotAction.set days wk wl)) :
    (∀ d ∈ days, d < 5) ∧ days ≠ [] ∧
      (wk = current_week_key nowOrd ∨ wk = next_week_key nowOrd) := by
  unfold parse_action at h
  split at h
  · exact Option.noConfusion h
  · simp only [parseActionGroups] at h
    split at h
    · split at h
      · exact Option.noConfusion h
      · split at h
        · exact Option.noConfusion h
        · next hemp2 =>
          have hinj := Option.some.inj h
          injection hinj with h1 h2 h3
          refine ⟨?_, ?_, ?_⟩
          · intro d hd
            rw [← h1] at hd
            have h4 := mem_sortedSet d _ hd
            rcases List.mem_filterMap.mp h4 with ⟨tok, _, hf⟩
            split at hf
            · split at hf
              · have h5 := Option.some.inj hf
                omega
              · exact Option.noConfusion hf
            · exact Option.noConfusion hf
          · rw [← h1]
            intro hnil
            apply hemp2
            rw [hnil]
            rfl
          · rw [← h2]
            split
            · exact Or.inl rfl
            · exact Or.inr rfl
    · exact BotAction.noConfusion (Option.some.inj h)

theorem parse_action_clear_inv (nowOrd : Nat) (t : String) (wk wl : String)
    (h : parse_action nowOrd t = some (BotAction.clear wk wl)) :
    wk = current_week_key nowOrd ∨ wk = next_week_key nowOrd := by
  unfold parse_action at h
  split at h
  · exact Option.noConfusion h
  · simp only [parseActionGroups] at h
    split at h
    · split at h
      · exact Option.noConfusion h
      · split at h
        · exact Option.noConfusion h
        · exact BotAction.noConfusion (Option.some.inj h)
    · have hinj := Option.some.inj h
      injection hinj with h2 h3
      rw [← h2]
      split
      · exact Or.inl rfl
      · exact Or.inr rfl

theorem parse_days_bound (args : List String) (days : List Nat)
    (h : parse_days args = some days) :
    days.all (fun d => decide (d < 5)) = true := by
  simp only [parse_days] at h
  split at h
  · exact Option.noConfusion h
  · have hd := Option.some.inj h
    rw [List.all_eq_true]
    intro d hdm
    rw [← hd] at hdm
    have h2 := mem_sortedSet d _ hdm
    rcases List.mem_filterMap.mp h2 with ⟨a, _, hla⟩
    exact lookupA_all (fun v => decide (v < 5)) DAYS_MAP (by decide) _ _ hla

theorem all_days_of_forall (days : List Nat) (h : ∀ d ∈ days, d < 5) :
    days.all (fun d => decide (d < 5)) = true := by
  rw [List.all_eq_true]
  intro d hd
  simpa using h d hd

theorem WFb_setDays (nowOrd : Nat) (uid name : String) (days : List Nat) (wk : String)
    (s : Store) (hW : WFb s = true) (hd : days.all (fun d => decide (d < 5)) = true) :
    WFb (set_days_for_user nowOrd uid name days wk s).1 = true := by
  unfold WFb at hW
  have hgoal : (set_days_for_user nowOrd uid name days wk s).1.weeks
      = updA wk (updA uid days
          ((lookupA (if containsA s.weeks wk then s.weeks else s.weeks ++ [(wk, [])]) wk).getD []))
        (if containsA s.weeks wk then s.weeks else s.weeks ++ [(wk, [])]) := rfl
  unfold WFb
  rw [hgoal]
  set w0 := if containsA s.weeks wk then s.weeks else s.weeks ++ [(wk, [])] with hw0def
  have hw0 : w0.all (fun p => p.2.all fun q => q.2.all fun d => decide (d < 5)) = true := by
    rw [hw0def]
    split
    · exact hW
    · rw [List.all_append]
      simp [hW]
  have hinner : ((lookupA w0 wk).getD []).all
      (fun q => q.2.all fun d => decide (d < 5)) = true := by
    cases hl : lookupA w0 wk with
    | none => simp
    | some v =>
      have h2 := lookupA_all (fun m => m.all fun q => q.2.all fun d => decide (d < 5))
        w0 hw0 wk v hl
      simpa using h2
  exact updA_all (fun m => m.all fun q => q.2.all fun d => decide (d < 5)) wk
    (updA uid days ((lookupA w0 wk).getD [])) w0 hw0
    (updA_all (fun ds => ds.all fun d => decide (d < 5)) uid days ((lookupA w0 wk).getD [])
      hinner hd)

theorem WFb_clearDays (nowOrd : Nat) (uid wk : String) (s : Store) (hW : WFb s = true) :
    WFb (clear_days_for_user nowOrd uid wk s).1 = true := by
  unfold WFb at hW ⊢
  unfold clear_days_for_user
  split
  · next inner hl =>
    split
    · next hc =>
      exact updA_all (fun m => m.all fun q => q.2.all fun d => decide (d < 5)) wk
        (eraseA uid inner) s.weeks hW
        (eraseA_all (fun ds => ds.all fun d => decide (d < 5)) uid inner
          (lookupA_all (fun m => m.all fun q => q.2.all fun d => decide (d < 5))
            s.weeks hW wk inner hl))
    · next hc => exact hW
  · next hl => exact hW

theorem WFb_filterWeeks (s : Store) (hW : WFb s = true)
    (p : String × List (String × List Nat) → Bool) :
    (s.weeks.filter p).all
      (fun q => q.2.all fun r => r.2.all fun d => decide (d < 5)) = true := by
  unfold WFb at hW
  rw [List.all_eq_true] at hW ⊢
  intro x hx
  exact hW x (List.mem_of_mem_filter hx)

/-- C9: every mutating operation reachable through the public command
and confirmation interface (commands, the LLM directive path with its
confirmed button press, cancel, the spec-modelled `/remind`, and the
scheduled sweep) preserves the invariant that every stored day list
contains only weekday indices in [0,4]; and a member absent from a
week's mapping is counted as attending zero days: appending them with
an empty day set changes no day count. -/
theorem stored_days_invariant :
    (∀ (op : Op) (s : Store), WFb s = true → WFb (applyOp op s) = true) ∧
    (∀ (wd : List (String × List Nat)) (uid : String) (d : Nat),
      countDay (wd ++ [(uid, [])]) d = countDay wd d) := by
  constructor
  · intro op s hW
    cases op with
    | startCmd c priv =>
      show WFb (if priv then s else register_group_chat c s) = true
      split
      · exact hW
      · unfold register_group_chat
        split
        · exact hW
        · exact hW
    | cmdSet uidN name args nowOrd isNext =>
      simp only [applyOp]
      cases hp : parse_days args with
      | none => exact hW
      | some days =>
        exact WFb_setDays _ _ _ _ _ _ hW (parse_days_bound args days hp)
    | cmdClear uidN nowOrd isNext =>
      simp only [applyOp]
      exact WFb_clearDays _ _ _ _ hW
    | llmConfirm uidN name llmText msgText nowOrd =>
      simp only [applyOp]
      cases ho : handle_text_offer nowOrd uidN llmText with
      | none => exact hW
      | some cb =>
        unfold handle_text_offer at ho
        split at ho
        · next days wk wlx hpa =>
          obtain ⟨hb, hne, hwk⟩ := parse_action_set_inv nowOrd llmText days wk wlx hpa
          have hcb : cb = mkSetCb (natStr uidN) (csvOf days) wk := (Option.some.inj ho).symm
          subst hcb
          show WFb (handle_callback nowOrd (mkSetCb (natStr uidN) (csvOf days) wk)
            (natStr uidN) name msgText s).1 = true
          unfold handle_callback
          rw [if_neg (mkSetCb_ne_cancel _ _ _),
            pySplit_mkSetCb _ _ _ (colon_not_mem_natStr uidN) (colon_not_mem_csvOf days hb)
              (by rcases hwk with h | h <;> rw [h] <;> exact colon_not_mem_week_key _)]
          simp only [List.getD_cons_zero, List.getD_cons_succ]
          have hnn : ¬ (natStr uidN ≠ natStr uidN) := not_not_intro rfl
          rw [if_pos trivial, if_neg hnn, pyParseInts_csvOf days hb hne]
          exact WFb_setDays nowOrd (natStr uidN) name days wk s hW (all_days_of_forall days hb)
        · next wk wlx hpa =>
          have hwk := parse_action_clear_inv nowOrd llmText wk wlx hpa
          have hcb : cb = mkClearCb (natStr uidN) wk := (Option.some.inj ho).symm
          subst hcb
          show WFb (handle_callback nowOrd (mkClearCb (natStr uidN) wk)
            (natStr uidN) name msgText s).1 = true
          unfold handle_callback
          rw [if_neg (mkClearCb_ne_cancel _ _),
            pySplit_mkClearCb _ _ (colon_not_mem_natStr uidN)
              (by rcases hwk with h | h <;> rw [h] <;> exact colon_not_mem_week_key _)]
          simp only [List.getD_cons_zero, List.getD_cons_succ]
          have hnn : ¬ (natStr uidN ≠ natStr uidN) := not_not_intro rfl
          have hcs : ¬ (("clear" : String) = "set") := by decide
          rw [if_neg hcs, if_neg hnn]
          exact WFb_clearDays nowOrd (natStr uidN) wk s hW
        · exact Option.noConfusion ho
    | cancelPress uidN msgText nowOrd =>
      simp only [applyOp]
      unfold handle_callback
      rw [if_pos rfl]
      exact hW
    | remindCmd c =>
      simp only [applyOp]
      unfold toggle_chat
      split
      · exact hW
      · exact hW
    | sweep nowOrd =>
      simp only [applyOp]
      exact WFb_filterWeeks s hW _
  · intro wd uid d
    unfold countDay
    rw [List.filter_append]
    simp

/-- Closed witness for `stored_days_invariant`: the invariant holds of
the empty store and is preserved by a concrete `/set Пн` command. -/
theorem stored_days_invariant_witness :
    WFb emptyStore = true ∧
    WFb (applyOp (Op.cmdSet 7 "A" ["Пн"] 1 false) emptyStore) = true :=
  ⟨by decide,
    stored_days_invariant.1 (Op.cmdSet 7 "A" ["Пн"] 1 false) emptyStore (by decide)⟩
